import Mathlib

/-!
# Verification of the tangram tracking pipeline (bundle-adjustment core)

Shallow embedding of the bundle-adjustment core of the tangram tracking
pipeline, translated from the C++ headers under
`TangramPipeline/bundle_adjustment/` (`CostFunctions.h`, `TrackedBA.h`,
`KalmanTracker.h`, `Parameterization.h`, `BundleAdjustment.h`).

`CostFunctions.h` carries full inline implementations
(`ReprojectionCostFunctor::operator()`, `getCandidateMappings`, the prior
functors); those are embedded directly.  `TrackedBA`, `KalmanTracker`,
`Parameterization` and `BundleAdjustment` are declaration-only headers (the
framework ships no corresponding `.cpp`), so their behaviour is modelled from
the specification document, using the configuration constants that ARE present
in the headers (`frames_needed_for_lock_ = 5`, `lock_error_threshold_ = 5.0`,
`unlock_error_threshold_ = 15.0`, `h_update_min_improvement_ = 0.05`,
`h_update_max_norm_ = 0.10`, `N_STATES = 30`).

C++ `double`/`float` arithmetic is embedded as real arithmetic (`ℝ`);
`std::numeric_limits<double>::max()` is the exact real value
`(2^53 - 1) * 2^971`.
-/

namespace Tangram

/-- A 2D point (`cv::Point2f` / `cv::Point_<T>` in the source, embedded over `ℝ`). -/
abbrev Pt : Type := ℝ × ℝ

/-- Left rotation of a list by `k` places:
`std::rotate(rolled.begin(), rolled.begin() + k, rolled.end())` in
`getCandidateMappings`. -/
def rollLeft (k : ℕ) (xs : List Pt) : List Pt := xs.drop k ++ xs.take k

/-- The condition guarding the reversed candidates in `getCandidateMappings`:
`shape_type == "triangle" || shape_type == "parallelogram" || shape_type == "square" || n == 3 || n == 4`. -/
def isReflective (shape_type : String) (n : ℕ) : Bool :=
  shape_type == "triangle" || shape_type == "parallelogram" || shape_type == "square"
    || n == 3 || n == 4

/-- The function `ReprojectionCostFunctor::getCandidateMappings` (CostFunctions.h lines
111-135): empty input gives no candidates; otherwise the `n` cyclic left
shifts of `pts`, followed — for triangles, parallelograms, squares, or any
`n ∈ {3,4}` — by the `n` cyclic left shifts of the reversed list. -/
def getCandidateMappings (pts : List Pt) (shape_type : String) : List (List Pt) :=
  if pts.isEmpty then []
  else
    let n := pts.length
    let cyc := (List.range n).map (fun k => rollLeft k pts)
    if isReflective shape_type n then
      cyc ++ (List.range n).map (fun k => rollLeft k pts.reverse)
    else
      cyc

theorem rollLeft_eq_rotate (k : ℕ) (xs : List Pt) (hk : k ≤ xs.length) :
    rollLeft k xs = xs.rotate k := by
  rw [rollLeft, List.rotate_eq_drop_append_take hk]

/-- C1: for a non-empty list of `n` detected points, `getCandidateMappings`
returns the `n` cyclic shifts of the input followed by the `n` cyclic shifts
of the reversed input (`2n` candidates) when the shape type is `"triangle"`,
`"parallelogram"` or `"square"` or `n ∈ {3,4}`; otherwise just the `n` cyclic
shifts (`n` candidates); and the empty input gives the empty list. -/
theorem getCandidateMappings_spec (pts : List Pt) (st : String) :
    (pts = [] → getCandidateMappings pts st = []) ∧
    (pts ≠ [] →
      (st = "triangle" ∨ st = "parallelogram" ∨ st = "square" ∨
          pts.length = 3 ∨ pts.length = 4) →
      getCandidateMappings pts st =
        (List.range pts.length).map (fun k => pts.rotate k) ++
          (List.range pts.length).map (fun k => pts.reverse.rotate k) ∧
      (getCandidateMappings pts st).length = 2 * pts.length) ∧
    (pts ≠ [] →
      ¬(st = "triangle" ∨ st = "parallelogram" ∨ st = "square" ∨
          pts.length = 3 ∨ pts.length = 4) →
      getCandidateMappings pts st =
        (List.range pts.length).map (fun k => pts.rotate k) ∧
      (getCandidateMappings pts st).length = pts.length) := by
  have hrefl : ∀ n, (isReflective st n = true) ↔
      (st = "triangle" ∨ st = "parallelogram" ∨ st = "square" ∨ n = 3 ∨ n = 4) := by
    intro n
    simp [isReflective, or_assoc]
  have hcyc : (List.range pts.length).map (fun k => rollLeft k pts) =
      (List.range pts.length).map (fun k => pts.rotate k) := by
    apply List.map_congr_left
    intro k hk
    exact rollLeft_eq_rotate k pts (List.mem_range.mp hk).le
  have hcycrev : (List.range pts.length).map (fun k => rollLeft k pts.reverse) =
      (List.range pts.length).map (fun k => pts.reverse.rotate k) := by
    apply List.map_congr_left
    intro k hk
    refine rollLeft_eq_rotate k pts.reverse ?_
    rw [List.length_reverse]
    exact (List.mem_range.mp hk).le
  refine ⟨fun h => by simp [getCandidateMappings, h], ?_, ?_⟩
  · intro hne hsh
    have hempty : pts.isEmpty = false := by
      simpa [List.isEmpty_iff] using hne
    have hb : isReflective st pts.length = true := (hrefl pts.length).mpr hsh
    constructor
    · simp only [getCandidateMappings, hempty, Bool.false_eq_true, if_false, hb, if_true]
      rw [hcyc, hcycrev]
    · simp only [getCandidateMappings, hempty, Bool.false_eq_true, if_false, hb, if_true]
      simp [two_mul]
  · intro hne hsh
    have hempty : pts.isEmpty = false := by
      simpa [List.isEmpty_iff] using hne
    have hb : isReflective st pts.length = false := by
      rcases Bool.eq_false_or_eq_true (isReflective st pts.length) with h | h
      · exact absurd ((hrefl pts.length).mp h) hsh
      · exact h
    constructor
    · simp only [getCandidateMappings, hempty, Bool.false_eq_true, if_false, hb, if_false]
      rw [hcyc]
    · simp only [getCandidateMappings, hempty, Bool.false_eq_true, if_false, hb, if_false]
      simp

/-- C1 witness: at the concrete input `[(0,0),(1,0),(2,1)]` with shape type
`"pentagon"` (non-reflective name but `n = 3`), the reflective branch applies
and yields 6 candidates. -/
theorem getCandidateMappings_spec_witness :
    (((0, 0) : Pt) :: ((1, 0) : Pt) :: [((2, 1) : Pt)] ≠ []) ∧
    getCandidateMappings [((0, 0) : Pt), (1, 0), (2, 1)] "pentagon" =
      (List.range 3).map (fun k => [((0, 0) : Pt), (1, 0), (2, 1)].rotate k) ++
        (List.range 3).map (fun k => [((0, 0) : Pt), (1, 0), (2, 1)].reverse.rotate k) ∧
    (getCandidateMappings [((0, 0) : Pt), (1, 0), (2, 1)] "pentagon").length = 6 := by
  have h := (getCandidateMappings_spec [((0, 0) : Pt), (1, 0), (2, 1)] "pentagon").2.1
    (by simp) (by right; right; right; left; rfl)
  exact ⟨by simp, h.1, h.2⟩

/-- The 8 free homography parameters `H_params[0..7]` of
`ReprojectionCostFunctor::operator()`; `H[2][2]` is fixed at `1`. -/
structure HParams where
  h0 : ℝ
  h1 : ℝ
  h2 : ℝ
  h3 : ℝ
  h4 : ℝ
  h5 : ℝ
  h6 : ℝ
  h7 : ℝ

/-- A rigid 2D pose `{theta, tx, ty}` (Types.h `struct Pose`). -/
structure Pose where
  theta : ℝ
  tx : ℝ
  ty : ℝ

/-- The per-term robust cost (the `huber` lambda in
`ReprojectionCostFunctor::operator()`, CostFunctions.h lines 83-85):
`(s2 <= 1) ? s2 : (2 * sqrt(s2) - 1)`. -/
noncomputable def huber (s2 : ℝ) : ℝ :=
  if s2 ≤ 1 then s2 else 2 * Real.sqrt s2 - 1

/-- The perspective-denominator clamp (CostFunctions.h lines 56-59):
`if (abs(projected_w) < 1e-8) projected_w = 1e-8;`. -/
noncomputable def clampDenom (w : ℝ) : ℝ :=
  if |w| < 1e-8 then 1e-8 else w

/-- The scaled-and-posed model point in the shared plane
(CostFunctions.h lines 50-54): scale the model point, rotate by `theta`,
translate by `(tx, ty)`. -/
noncomputable def planePoint (scale : ℝ) (pose : Pose) (p : Pt) : Pt :=
  let model_x := p.1 * scale
  let model_y := p.2 * scale
  (Real.cos pose.theta * model_x - Real.sin pose.theta * model_y + pose.tx,
   Real.sin pose.theta * model_x + Real.cos pose.theta * model_y + pose.ty)

/-- The raw perspective denominator `H[2][0]*plane_x + H[2][1]*plane_y + H[2][2]`
with `H[2][2] = 1` (CostFunctions.h line 56). -/
noncomputable def rawDenom (H : HParams) (q : Pt) : ℝ :=
  H.h6 * q.1 + H.h7 * q.2 + 1

/-- Projection of one model point through pose then homography
(CostFunctions.h lines 49-64), with the clamped perspective division. -/
noncomputable def projectPoint (H : HParams) (scale : ℝ) (pose : Pose) (p : Pt) : Pt :=
  let q := planePoint scale pose p
  let w := clampDenom (rawDenom H q)
  ((H.h0 * q.1 + H.h1 * q.2 + H.h2) / w,
   (H.h3 * q.1 + H.h4 * q.2 + H.h5) / w)

/-- The `projected_model_points` vector of `operator()`. -/
noncomputable def projectedPoints (model : List Pt) (H : HParams) (scale : ℝ)
    (pose : Pose) : List Pt :=
  model.map (projectPoint H scale pose)

/-- Robust cost of one projected/candidate point pair (CostFunctions.h lines
75-86): weighted deltas, normalized by `f_scale`, squared, Huber-shaped, summed
over x and y. -/
noncomputable def pairCost (weight_sqrt f_scale : ℝ) (proj cand : Pt) : ℝ :=
  let dx := (proj.1 - cand.1) * weight_sqrt
  let dy := (proj.2 - cand.2) * weight_sqrt
  let rx := dx / f_scale
  let ry := dy / f_scale
  huber (rx * rx) + huber (ry * ry)

/-- Total robust cost of one candidate ordering (the inner loop of
CostFunctions.h lines 73-87); `cand[i]` is indexed for every projected index
`i`, as in the source (the vertex-count invariant makes the lists equal
length; out-of-range access is embedded as the default point `(0,0)`). -/
noncomputable def candCost (weight_sqrt f_scale : ℝ) (projected cand : List Pt) : ℝ :=
  ((List.range projected.length).map
    (fun i => pairCost weight_sqrt f_scale (projected.getD i (0, 0))
      (cand.getD i (0, 0)))).sum

/-- The value `std::numeric_limits<double>::max()`, the initial `min_cost`
(CostFunctions.h line 68), as its exact real value. -/
noncomputable def maxDouble : ℝ := (2 ^ 53 - 1) * 2 ^ 971

/-- The candidate-selection loop of CostFunctions.h lines 71-92: walk the cost
list with running `(min_cost, best_candidate_idx)`, replacing on strict
improvement `cost < min_cost`. -/
noncomputable def selectBestAux : List ℝ → ℕ → ℝ × ℤ → ℝ × ℤ
  | [], _, acc => acc
  | c :: rest, i, acc =>
    if c < acc.1 then selectBestAux rest (i + 1) (c, (i : ℤ))
    else selectBestAux rest (i + 1) acc

/-- Candidate selection starting from `min_cost = DBL_MAX`,
`best_candidate_idx = -1` (CostFunctions.h lines 68-69). -/
noncomputable def selectBest (costs : List ℝ) : ℝ × ℤ :=
  selectBestAux costs 0 (maxDouble, -1)

/-- The per-candidate robust costs computed inside `operator()`. -/
noncomputable def candidateCosts (detected model : List Pt) (shape_type : String)
    (weight_sqrt f_scale : ℝ) (H : HParams) (scale : ℝ) (pose : Pose) : List ℝ :=
  (getCandidateMappings detected shape_type).map
    (candCost weight_sqrt f_scale (projectedPoints model H scale pose))

/-- The plain weighted-delta residual block written for the winning candidate
(CostFunctions.h lines 96-99): `weight_sqrt * (projected - candidate)` in x
and y, interleaved. -/
noncomputable def weightedDeltas (weight_sqrt : ℝ) (projected cand : List Pt) : List ℝ :=
  (List.range projected.length).flatMap
    (fun i =>
      [weight_sqrt * ((projected.getD i (0, 0)).1 - (cand.getD i (0, 0)).1),
       weight_sqrt * ((projected.getD i (0, 0)).2 - (cand.getD i (0, 0)).2)])

/-- The evaluation `ReprojectionCostFunctor::operator()` (CostFunctions.h lines 27-108),
embedded over `ℝ`: returns the residual vector and the C++ `bool` result
(the source ends in an unconditional `return true`).  `weight_sqrt` is the
stored `weight_sqrt_ = sqrt(weight)` of the constructor. -/
noncomputable def evalResiduals (detected model : List Pt) (shape_type : String)
    (weight_sqrt f_scale : ℝ) (H : HParams) (scale : ℝ) (pose : Pose) :
    List ℝ × Bool :=
  let projected := projectedPoints model H scale pose
  let cands := getCandidateMappings detected shape_type
  let costs := cands.map (candCost weight_sqrt f_scale projected)
  let best := (selectBest costs).2
  if best = -1 then (List.replicate (2 * model.length) 0, true)
  else (weightedDeltas weight_sqrt projected (cands.getD best.toNat []), true)

/-- C2: the robust per-term cost is `s2` for `s2 ≤ 1` and `2·√s2 − 1` for
`s2 > 1`; the two formulas agree at `s2 = 1`, and `huber` is continuous
there. -/
theorem huber_spec (s2 : ℝ) :
    (s2 ≤ 1 → huber s2 = s2) ∧
    (1 < s2 → huber s2 = 2 * Real.sqrt s2 - 1) ∧
    (2 * Real.sqrt 1 - 1 = (1 : ℝ)) ∧
    ContinuousAt huber 1 := by
  refine ⟨fun h => by simp [huber, h], fun h => by simp [huber, not_le.mpr h], ?_, ?_⟩
  · rw [Real.sqrt_one]; ring
  · have hc : Continuous huber := by
      have : Continuous fun x : ℝ => if x ≤ 1 then x else 2 * Real.sqrt x - 1 := by
        apply Continuous.if
        · intro a ha
          have h1 : a ∈ frontier (Set.Iic (1 : ℝ)) := ha
          rw [frontier_Iic] at h1
          rw [Set.mem_singleton_iff] at h1
          subst h1
          rw [Real.sqrt_one]; ring
        · exact continuous_id
        · have := Real.continuous_sqrt
          continuity
      simpa [huber] using this
    exact hc.continuousAt

/-- C2 witness: at `s2 = 4` the large branch gives `2·√4 − 1 = 3`. -/
theorem huber_spec_witness :
    (1 : ℝ) < 4 ∧ huber 4 = 3 := by
  have h := (huber_spec 4).2.1 (by norm_num)
  refine ⟨by norm_num, ?_⟩
  rw [h, show (4 : ℝ) = 2 ^ 2 by norm_num, Real.sqrt_sq (by norm_num)]
  norm_num

/-- C6: the perspective denominator is replaced by the epsilon `1e-8` whenever
its absolute value is below `1e-8`, and the divisor actually used by the
projection is never zero, for all homography, scale and pose parameters. -/
theorem perspective_denominator_total (H : HParams) (scale : ℝ) (pose : Pose) (p : Pt) :
    (|rawDenom H (planePoint scale pose p)| < 1e-8 →
      clampDenom (rawDenom H (planePoint scale pose p)) = 1e-8) ∧
    clampDenom (rawDenom H (planePoint scale pose p)) ≠ 0 ∧
    (projectPoint H scale pose p).1 =
      (H.h0 * (planePoint scale pose p).1 + H.h1 * (planePoint scale pose p).2 + H.h2) /
        clampDenom (rawDenom H (planePoint scale pose p)) := by
  refine ⟨fun h => by simp [clampDenom, h], ?_, rfl⟩
  by_cases h : |rawDenom H (planePoint scale pose p)| < 1e-8
  · simp only [clampDenom, h, if_true]
    norm_num
  · simp only [clampDenom, h, if_false]
    intro h0
    rw [h0] at h
    simp at h
    norm_num at h

/-- C6 witness: with `H[2][0] = -1`, identity-like pose translation `tx = 1`
and model point `(0,0)`, the raw denominator is exactly `0`, the clamp fires
and the used divisor is `1e-8 ≠ 0`. -/
theorem perspective_denominator_total_witness :
    |rawDenom ⟨0, 0, 0, 0, 0, 0, -1, 0⟩ (planePoint 1 ⟨0, 1, 0⟩ (0, 0))| < 1e-8 ∧
    clampDenom (rawDenom ⟨0, 0, 0, 0, 0, 0, -1, 0⟩ (planePoint 1 ⟨0, 1, 0⟩ (0, 0))) = 1e-8 ∧
    clampDenom (rawDenom ⟨0, 0, 0, 0, 0, 0, -1, 0⟩ (planePoint 1 ⟨0, 1, 0⟩ (0, 0))) ≠ 0 := by
  have hw : rawDenom ⟨0, 0, 0, 0, 0, 0, -1, 0⟩ (planePoint 1 ⟨0, 1, 0⟩ (0, 0)) = 0 := by
    simp [rawDenom, planePoint]
  have habs : |rawDenom ⟨0, 0, 0, 0, 0, 0, -1, 0⟩ (planePoint 1 ⟨0, 1, 0⟩ (0, 0))| < 1e-8 := by
    rw [hw]
    norm_num
  have h := perspective_denominator_total ⟨0, 0, 0, 0, 0, 0, -1, 0⟩ 1 ⟨0, 1, 0⟩ (0, 0)
  exact ⟨habs, h.1 habs, h.2.1⟩

/-- C7: for the empty detected list the candidate set is empty, every residual
slot is written as zero (`2 · |model|` zeros), and the evaluation still
returns `true` (success), as in the source's `best_candidate_idx == -1`
branch. -/
theorem empty_input_zero_residuals (model : List Pt) (st : String)
    (weight_sqrt f_scale : ℝ) (H : HParams) (scale : ℝ) (pose : Pose) :
    getCandidateMappings [] st = [] ∧
    (evalResiduals [] model st weight_sqrt f_scale H scale pose).1 =
      List.replicate (2 * model.length) 0 ∧
    (evalResiduals [] model st weight_sqrt f_scale H scale pose).2 = true := by
  refine ⟨by simp [getCandidateMappings], ?_, ?_⟩ <;>
    simp [evalResiduals, getCandidateMappings, selectBest, selectBestAux]

/-- C10: the clamp replaces any denominator of absolute value below `1e-8` by
the positive constant `1e-8` regardless of sign; hence for a small negative
denominator and a positive numerator, the unclamped quotient is negative
while the clamped quotient used by the code is positive (the clamp bounds
the divisor's magnitude but does not preserve its sign). -/
theorem clampDenom_one_sided (w num : ℝ) :
    (|w| < 1e-8 → clampDenom w = 1e-8) ∧
    (-1e-8 < w → w < 0 → 0 < num → num / w < 0 ∧ 0 < num / clampDenom w) := by
  refine ⟨fun h => by simp [clampDenom, h], fun hlo hneg hnum => ?_⟩
  have habs : |w| < 1e-8 := abs_lt.mpr ⟨by linarith, by linarith⟩
  constructor
  · exact div_neg_of_pos_of_neg hnum hneg
  · rw [clampDenom, if_pos habs]
    apply div_pos hnum
    norm_num

/-- C10 witness: at `w = -1e-9`, `num = 1`: the clamp yields `+1e-8`, the raw
quotient is negative, the clamped quotient positive. -/
theorem clampDenom_one_sided_witness :
    |(-1e-9 : ℝ)| < 1e-8 ∧ clampDenom (-1e-9) = 1e-8 ∧
    (1 : ℝ) / (-1e-9) < 0 ∧ 0 < (1 : ℝ) / clampDenom (-1e-9) := by
  have h := clampDenom_one_sided (-1e-9) 1
  have habs : |(-1e-9 : ℝ)| < 1e-8 := by
    rw [abs_lt]
    constructor <;> norm_num
  have h2 := h.2 (by norm_num) (by norm_num) (by norm_num)
  exact ⟨habs, h.1 habs, h2.1, h2.2⟩

/-- Invariant of the candidate-selection loop: the running minimum only
decreases and ends below every visited cost; if no cost beats the incoming
minimum the accumulator is returned unchanged; if some cost beats it, the
returned index points at a cost equal to the returned minimum. -/
theorem selectBestAux_spec (costs : List ℝ) :
    ∀ (i : ℕ) (m : ℝ) (b : ℤ),
      (selectBestAux costs i (m, b)).1 ≤ m ∧
      (∀ c ∈ costs, (selectBestAux costs i (m, b)).1 ≤ c) ∧
      ((∀ c ∈ costs, m ≤ c) → selectBestAux costs i (m, b) = (m, b)) ∧
      ((∃ c ∈ costs, c < m) → ∃ j, j < costs.length ∧
        (selectBestAux costs i (m, b)).2 = ((i + j : ℕ) : ℤ) ∧
        costs.getD j 0 = (selectBestAux costs i (m, b)).1) := by
  induction costs with
  | nil =>
    intro i m b
    refine ⟨le_refl m, ?_, fun _ => rfl, ?_⟩
    · intro c hc; exact absurd hc (List.not_mem_nil c)
    · rintro ⟨c, hc, -⟩; exact absurd hc (List.not_mem_nil c)
  | cons c rest ih =>
    intro i m b
    by_cases hc : c < m
    · have hstep : selectBestAux (c :: rest) i (m, b) =
          selectBestAux rest (i + 1) (c, (i : ℤ)) := by
        simp [selectBestAux, hc]
      obtain ⟨ih1, ih2, ih3, ih4⟩ := ih (i + 1) c (i : ℤ)
      rw [hstep]
      refine ⟨ih1.trans hc.le, ?_, ?_, ?_⟩
      · intro x hx
        rcases List.mem_cons.mp hx with hx | hx
        · subst hx; exact ih1
        · exact ih2 x hx
      · intro hall
        exact absurd (hall c (List.mem_cons_self c rest)) (not_le.mpr hc)
      · intro _
        by_cases hrest : ∃ x ∈ rest, x < c
        · obtain ⟨j, hj, hidx, hval⟩ := ih4 hrest
          refine ⟨j + 1, by simpa using Nat.succ_lt_succ hj, ?_, ?_⟩
          · rw [hidx]; congr 1; omega
          · simpa using hval
        · push_neg at hrest
          have heq := ih3 hrest
          refine ⟨0, Nat.succ_pos _, ?_, ?_⟩
          · rw [heq]; simp
          · rw [heq]; simp
    · have hstep : selectBestAux (c :: rest) i (m, b) =
          selectBestAux rest (i + 1) (m, b) := by
        simp [selectBestAux, hc]
      obtain ⟨ih1, ih2, ih3, ih4⟩ := ih (i + 1) m b
      rw [hstep]
      refine ⟨ih1, ?_, ?_, ?_⟩
      · intro x hx
        rcases List.mem_cons.mp hx with hx | hx
        · subst hx; exact ih1.trans (not_lt.mp hc)
        · exact ih2 x hx
      · intro hall
        exact ih3 (fun x hx => hall x (List.mem_cons_of_mem c hx))
      · rintro ⟨x, hx, hxm⟩
        rcases List.mem_cons.mp hx with hx | hx
        · subst hx; exact absurd hxm hc
        · obtain ⟨j, hj, hidx, hval⟩ := ih4 ⟨x, hx, hxm⟩
          refine ⟨j + 1, by simpa using Nat.succ_lt_succ hj, ?_, ?_⟩
          · rw [hidx]; congr 1; omega
          · simpa using hval

/-- C3 (amended): whenever at least one candidate's robust cost is below
`std::numeric_limits<double>::max()` (the loop's initial `min_cost`), the
residual vector is the plain weighted-delta block of a minimum-robust-cost
candidate ordering — the Huber shaping only selects the winner — and the
evaluation returns `true`. -/
theorem residuals_are_plain_weighted_deltas (detected model : List Pt)
    (st : String) (weight_sqrt f_scale : ℝ) (H : HParams) (scale : ℝ) (pose : Pose)
    (h : ∃ c ∈ candidateCosts detected model st weight_sqrt f_scale H scale pose,
      c < maxDouble) :
    ∃ j, j < (getCandidateMappings detected st).length ∧
      (∀ c ∈ candidateCosts detected model st weight_sqrt f_scale H scale pose,
        (candidateCosts detected model st weight_sqrt f_scale H scale pose).getD j 0 ≤ c) ∧
      (evalResiduals detected model st weight_sqrt f_scale H scale pose).1 =
        weightedDeltas weight_sqrt (projectedPoints model H scale pose)
          ((getCandidateMappings detected st).getD j []) ∧
      (evalResiduals detected model st weight_sqrt f_scale H scale pose).2 = true := by
  obtain ⟨h1, h2, h3, h4⟩ :=
    selectBestAux_spec
      (candidateCosts detected model st weight_sqrt f_scale H scale pose) 0 maxDouble (-1)
  obtain ⟨j, hj, hidx, hval⟩ := h4 h
  have hlen : (candidateCosts detected model st weight_sqrt f_scale H scale pose).length =
      (getCandidateMappings detected st).length := by
    simp [candidateCosts]
  have hbest : (selectBest
      (candidateCosts detected model st weight_sqrt f_scale H scale pose)).2 = (j : ℤ) := by
    simpa [selectBest] using hidx
  have hne : (selectBest
      (candidateCosts detected model st weight_sqrt f_scale H scale pose)).2 ≠ -1 := by
    rw [hbest]
    omega
  refine ⟨j, hlen ▸ hj, ?_, ?_, ?_⟩
  · intro c hcmem
    calc (candidateCosts detected model st weight_sqrt f_scale H scale pose).getD j 0 =
        (selectBestAux
          (candidateCosts detected model st weight_sqrt f_scale H scale pose)
          0 (maxDouble, -1)).1 := hval
      _ ≤ c := h2 c hcmem
  · simp only [evalResiduals, candidateCosts] at hne hbest ⊢
    rw [if_neg hne, hbest]
    simp
  · simp only [evalResiduals, candidateCosts] at hne ⊢
    rw [if_neg hne]


/-- C3 counterexample: with `scale` equal to `DBL_MAX`, detected point `(1,0)`
and model point `(1,0)`, each candidate's robust cost is `2·DBL_MAX − 3`,
which is not below the loop's initial `min_cost = DBL_MAX`;
`best_candidate_idx` stays `-1` and the code returns all-zero residuals even
though the candidate set is non-empty and the plain weighted deltas of both
candidates are `[DBL_MAX − 1, 0] ≠ [0, 0]`. -/
theorem residuals_zero_despite_candidates :
    (getCandidateMappings [((1 : ℝ), (0 : ℝ))] "triangle").length = 2 ∧
    (evalResiduals [((1 : ℝ), (0 : ℝ))] [((1 : ℝ), (0 : ℝ))] "triangle" 1 1
      ⟨1, 0, 0, 0, 1, 0, 0, 0⟩ maxDouble ⟨0, 0, 0⟩).1 = [0, 0] ∧
    weightedDeltas 1
      (projectedPoints [((1 : ℝ), (0 : ℝ))] ⟨1, 0, 0, 0, 1, 0, 0, 0⟩ maxDouble ⟨0, 0, 0⟩)
      ((getCandidateMappings [((1 : ℝ), (0 : ℝ))] "triangle").getD 0 []) =
      [maxDouble - 1, 0] ∧
    weightedDeltas 1
      (projectedPoints [((1 : ℝ), (0 : ℝ))] ⟨1, 0, 0, 0, 1, 0, 0, 0⟩ maxDouble ⟨0, 0, 0⟩)
      ((getCandidateMappings [((1 : ℝ), (0 : ℝ))] "triangle").getD 1 []) =
      [maxDouble - 1, 0] ∧
    maxDouble - 1 ≠ 0 := by
  have hM3 : (3 : ℝ) ≤ maxDouble := by norm_num [maxDouble]
  have hr1 : List.range 1 = [0] := rfl
  have hcands : getCandidateMappings [((1 : ℝ), (0 : ℝ))] "triangle" =
      [[((1 : ℝ), (0 : ℝ))], [((1 : ℝ), (0 : ℝ))]] := rfl
  have hq : planePoint maxDouble ⟨0, 0, 0⟩ ((1 : ℝ), (0 : ℝ)) = (maxDouble, 0) := by
    simp [planePoint]
  have hd : clampDenom (rawDenom ⟨1, 0, 0, 0, 1, 0, 0, 0⟩ (maxDouble, 0)) = 1 := by
    norm_num [clampDenom, rawDenom]
  have hpp : projectPoint ⟨1, 0, 0, 0, 1, 0, 0, 0⟩ maxDouble ⟨0, 0, 0⟩
      ((1 : ℝ), (0 : ℝ)) = (maxDouble, 0) := by
    simp only [projectPoint, hq, hd]
    norm_num
  have hprojPts : projectedPoints [((1 : ℝ), (0 : ℝ))] ⟨1, 0, 0, 0, 1, 0, 0, 0⟩
      maxDouble ⟨0, 0, 0⟩ = [(maxDouble, 0)] := by
    simp only [projectedPoints, List.map_cons, List.map_nil, hpp]
  have hbig : ¬((maxDouble - 1) * (maxDouble - 1) ≤ 1) := by
    have h2 : (2 : ℝ) ≤ maxDouble - 1 := by linarith
    intro h
    nlinarith
  have hhub : huber ((maxDouble - 1) * (maxDouble - 1)) = 2 * (maxDouble - 1) - 1 := by
    rw [huber, if_neg hbig, Real.sqrt_mul_self (by linarith : (0 : ℝ) ≤ maxDouble - 1)]
  have hpc : pairCost 1 1 (maxDouble, (0 : ℝ)) ((1 : ℝ), (0 : ℝ)) = 2 * maxDouble - 3 := by
    simp only [pairCost]
    norm_num
    rw [hhub]
    norm_num [huber]
    ring
  have hcost : candCost 1 1 [(maxDouble, (0 : ℝ))] [((1 : ℝ), (0 : ℝ))] =
      2 * maxDouble - 3 := by
    simp [candCost, hr1, hpc]
  have hnlt : ¬(2 * maxDouble - 3 < maxDouble) := by
    push_neg
    linarith
  have hsel : selectBest [2 * maxDouble - 3, 2 * maxDouble - 3] = (maxDouble, -1) := by
    simp [selectBest, selectBestAux, hnlt]
  have hrep : List.replicate (2 * [((1 : ℝ), (0 : ℝ))].length) (0 : ℝ) = [0, 0] := rfl
  have hres : (evalResiduals [((1 : ℝ), (0 : ℝ))] [((1 : ℝ), (0 : ℝ))] "triangle" 1 1
      ⟨1, 0, 0, 0, 1, 0, 0, 0⟩ maxDouble ⟨0, 0, 0⟩).1 = [0, 0] := by
    simp only [evalResiduals, hcands, hprojPts, List.map_cons, List.map_nil, hcost, hsel,
      hrep]
    norm_num
  have hdeltas : weightedDeltas 1 [(maxDouble, (0 : ℝ))] [((1 : ℝ), (0 : ℝ))] =
      [maxDouble - 1, 0] := by
    simp [weightedDeltas, hr1]
  have hget0 : ([[((1 : ℝ), (0 : ℝ))], [((1 : ℝ), (0 : ℝ))]].getD 0 ([] : List Pt)) =
      [((1 : ℝ), (0 : ℝ))] := rfl
  have hget1 : ([[((1 : ℝ), (0 : ℝ))], [((1 : ℝ), (0 : ℝ))]].getD 1 ([] : List Pt)) =
      [((1 : ℝ), (0 : ℝ))] := rfl
  refine ⟨by rw [hcands]; rfl, hres, ?_, ?_, by linarith⟩
  · rw [hcands, hprojPts, hget0]
    exact hdeltas
  · rw [hcands, hprojPts, hget1]
    exact hdeltas

/-- C3 witness for the amended theorem: at a small concrete input (unit
homography, unit scale, detected equal to projected) the candidate costs are
`[0, 0]`, well below `DBL_MAX`, and the amended theorem applies. -/
theorem residuals_are_plain_weighted_deltas_witness :
    (∃ c ∈ candidateCosts [((1 : ℝ), (0 : ℝ))] [((1 : ℝ), (0 : ℝ))] "triangle" 1 1
        ⟨1, 0, 0, 0, 1, 0, 0, 0⟩ 1 ⟨0, 0, 0⟩, c < maxDouble) ∧
    (∃ j, j < (getCandidateMappings [((1 : ℝ), (0 : ℝ))] "triangle").length ∧
      (∀ c ∈ candidateCosts [((1 : ℝ), (0 : ℝ))] [((1 : ℝ), (0 : ℝ))] "triangle" 1 1
          ⟨1, 0, 0, 0, 1, 0, 0, 0⟩ 1 ⟨0, 0, 0⟩,
        (candidateCosts [((1 : ℝ), (0 : ℝ))] [((1 : ℝ), (0 : ℝ))] "triangle" 1 1
          ⟨1, 0, 0, 0, 1, 0, 0, 0⟩ 1 ⟨0, 0, 0⟩).getD j 0 ≤ c) ∧
      (evalResiduals [((1 : ℝ), (0 : ℝ))] [((1 : ℝ), (0 : ℝ))] "triangle" 1 1
          ⟨1, 0, 0, 0, 1, 0, 0, 0⟩ 1 ⟨0, 0, 0⟩).1 =
        weightedDeltas 1
          (projectedPoints [((1 : ℝ), (0 : ℝ))] ⟨1, 0, 0, 0, 1, 0, 0, 0⟩ 1 ⟨0, 0, 0⟩)
          ((getCandidateMappings [((1 : ℝ), (0 : ℝ))] "triangle").getD j []) ∧
      (evalResiduals [((1 : ℝ), (0 : ℝ))] [((1 : ℝ), (0 : ℝ))] "triangle" 1 1
          ⟨1, 0, 0, 0, 1, 0, 0, 0⟩ 1 ⟨0, 0, 0⟩).2 = true) := by
  have hr1 : List.range 1 = [0] := rfl
  have hcands : getCandidateMappings [((1 : ℝ), (0 : ℝ))] "triangle" =
      [[((1 : ℝ), (0 : ℝ))], [((1 : ℝ), (0 : ℝ))]] := rfl
  have hq : planePoint (1 : ℝ) ⟨0, 0, 0⟩ ((1 : ℝ), (0 : ℝ)) = ((1 : ℝ), (0 : ℝ)) := by
    simp [planePoint]
  have hd : clampDenom (rawDenom ⟨1, 0, 0, 0, 1, 0, 0, 0⟩ ((1 : ℝ), (0 : ℝ))) = 1 := by
    norm_num [clampDenom, rawDenom]
  have hpp : projectPoint ⟨1, 0, 0, 0, 1, 0, 0, 0⟩ (1 : ℝ) ⟨0, 0, 0⟩ ((1 : ℝ), (0 : ℝ)) =
      ((1 : ℝ), (0 : ℝ)) := by
    simp only [projectPoint, hq, hd]
    norm_num
  have hprojPts : projectedPoints [((1 : ℝ), (0 : ℝ))] ⟨1, 0, 0, 0, 1, 0, 0, 0⟩ 1
      ⟨0, 0, 0⟩ = [((1 : ℝ), (0 : ℝ))] := by
    simp only [projectedPoints, List.map_cons, List.map_nil, hpp]
  have hpc : pairCost 1 1 ((1 : ℝ), (0 : ℝ)) ((1 : ℝ), (0 : ℝ)) = 0 := by
    simp [pairCost, huber]
  have hcost : candCost 1 1 [((1 : ℝ), (0 : ℝ))] [((1 : ℝ), (0 : ℝ))] = 0 := by
    simp [candCost, hr1, hpc]
  have hcc : candidateCosts [((1 : ℝ), (0 : ℝ))] [((1 : ℝ), (0 : ℝ))] "triangle" 1 1
      ⟨1, 0, 0, 0, 1, 0, 0, 0⟩ 1 ⟨0, 0, 0⟩ = [0, 0] := by
    simp only [candidateCosts, hcands, hprojPts, List.map_cons, List.map_nil, hcost]
  have hhyp : ∃ c ∈ candidateCosts [((1 : ℝ), (0 : ℝ))] [((1 : ℝ), (0 : ℝ))] "triangle" 1 1
      ⟨1, 0, 0, 0, 1, 0, 0, 0⟩ 1 ⟨0, 0, 0⟩, c < maxDouble := by
    rw [hcc]
    refine ⟨0, by simp, by norm_num [maxDouble]⟩
  exact ⟨hhyp, residuals_are_plain_weighted_deltas _ _ _ _ _ _ _ _ hhyp⟩

/-- The threshold `h_update_min_improvement_ = 0.05` (TrackedBA.h line 42). -/
def h_update_min_improvement : ℝ := 0.05

/-- The threshold `h_update_max_norm_ = 0.10` (TrackedBA.h line 43). -/
def h_update_max_norm : ℝ := 0.10

/-- The orchestrator's accepted shared-homography state (`accepted_H_`,
`accepted_scale_`, TrackedBA.h lines 49-50). -/
structure AcceptedState where
  H : HParams
  scale : ℝ

/-- One frame's optimizer output as offered to the H-update gate: candidate
H, candidate scale, the newly optimized per-piece poses, and the new mean
piece error. -/
structure CandidateUpdate where
  H : HParams
  scale : ℝ
  poses : Fin 7 → Pose
  meanError : ℝ

/-- Modelled from the spec: `TrackedBA::processFrame` has no body in the
repository (TrackedBA.h only declares it); spec section 4.5 step 5 measures
the fractional improvement of the mean piece error relative to
`previous_mean_error`. -/
noncomputable def meanImprovement (previous_mean_error new_mean_error : ℝ) : ℝ :=
  (previous_mean_error - new_mean_error) / previous_mean_error

/-- Euclidean norm of the change of the 8 free H parameters. -/
noncomputable def hDeltaNorm (a b : HParams) : ℝ :=
  Real.sqrt ((a.h0 - b.h0) ^ 2 + (a.h1 - b.h1) ^ 2 + (a.h2 - b.h2) ^ 2 +
    (a.h3 - b.h3) ^ 2 + (a.h4 - b.h4) ^ 2 + (a.h5 - b.h5) ^ 2 +
    (a.h6 - b.h6) ^ 2 + (a.h7 - b.h7) ^ 2)

/-- Modelled from the spec: the H-update gate of `processFrame` step 5
(`TrackedBA::processFrame` has no body in the repository; the thresholds are
TrackedBA.h's member initializers): accept the optimizer's new H/scale only
if the mean error improved by at least `h_update_min_improvement`
(fractional, relative to `previous_mean_error`) and the norm of the H
parameter change is below `h_update_max_norm`; otherwise keep the previously
accepted H/scale.  The newly optimized per-piece poses are used either way. -/
noncomputable def applyHUpdateGate (previous_mean_error : ℝ) (prev : AcceptedState)
    (cand : CandidateUpdate) : AcceptedState × (Fin 7 → Pose) :=
  if h_update_min_improvement ≤ meanImprovement previous_mean_error cand.meanError ∧
      hDeltaNorm cand.H prev.H < h_update_max_norm then
    (⟨cand.H, cand.scale⟩, cand.poses)
  else
    (prev, cand.poses)

/-- C4: for every frame whose candidate H/scale update improves the mean
piece error by less than `h_update_min_improvement = 0.05` relative to
`previous_mean_error`, or whose H-parameter change norm is above
`h_update_max_norm = 0.10`, the accepted H and scale after the gate are
exactly the values from before the frame, and only the per-piece poses are
taken from the new optimizer solution. -/
theorem h_update_gate_keeps_accepted (previous_mean_error : ℝ)
    (prev : AcceptedState) (cand : CandidateUpdate)
    (h : meanImprovement previous_mean_error cand.meanError < h_update_min_improvement ∨
      h_update_max_norm < hDeltaNorm cand.H prev.H) :
    (applyHUpdateGate previous_mean_error prev cand).1 = prev ∧
    (applyHUpdateGate previous_mean_error prev cand).2 = cand.poses := by
  have hneg : ¬(h_update_min_improvement ≤
      meanImprovement previous_mean_error cand.meanError ∧
      hDeltaNorm cand.H prev.H < h_update_max_norm) := by
    rcases h with h | h
    · exact fun hc => absurd hc.1 (not_le.mpr h)
    · exact fun hc => absurd hc.2 (not_lt.mpr h.le)
  rw [applyHUpdateGate, if_neg hneg]
  exact ⟨rfl, rfl⟩

/-- C4 witness: with `previous_mean_error = 1` and a candidate whose mean
error is also `1` (zero improvement, below the 5% requirement), the gate
keeps the previous accepted state. -/
theorem h_update_gate_keeps_accepted_witness :
    meanImprovement 1 1 < h_update_min_improvement ∧
    (applyHUpdateGate 1 ⟨⟨0, 0, 0, 0, 0, 0, 0, 0⟩, 1⟩
      ⟨⟨1, 0, 0, 0, 1, 0, 0, 0⟩, 2, fun _ => ⟨0, 0, 0⟩, 1⟩).1 =
      ⟨⟨0, 0, 0, 0, 0, 0, 0, 0⟩, 1⟩ ∧
    (applyHUpdateGate 1 ⟨⟨0, 0, 0, 0, 0, 0, 0, 0⟩, 1⟩
      ⟨⟨1, 0, 0, 0, 1, 0, 0, 0⟩, 2, fun _ => ⟨0, 0, 0⟩, 1⟩).2 =
      (fun _ => ⟨0, 0, 0⟩) := by
  have himp : meanImprovement 1 1 < h_update_min_improvement := by
    norm_num [meanImprovement, h_update_min_improvement]
  have h := h_update_gate_keeps_accepted 1 ⟨⟨0, 0, 0, 0, 0, 0, 0, 0⟩, 1⟩
    ⟨⟨1, 0, 0, 0, 1, 0, 0, 0⟩, 2, fun _ => ⟨0, 0, 0⟩, 1⟩ (Or.inl himp)
  exact ⟨himp, h.1, h.2⟩

/-- The counter target `frames_needed_for_lock_ = 5` (TrackedBA.h line 38). -/
def frames_needed_for_lock : ℕ := 5

/-- The threshold `lock_error_threshold_ = 5.0` (TrackedBA.h line 39). -/
def lock_error_threshold : ℝ := 5.0

/-- The threshold `unlock_error_threshold_ = 15.0` (TrackedBA.h line 40). -/
def unlock_error_threshold : ℝ := 15.0

/-- The locking state of the orchestrator (`homography_locked_`, `locked_H_`,
`locked_scale_`, `frames_stable_`, TrackedBA.h lines 52-56), together with
the accepted H/scale the frame carries forward. -/
structure LockState where
  locked : Bool
  framesStable : ℕ
  acceptedH : HParams
  acceptedScale : ℝ
  lockedH : HParams
  lockedScale : ℝ

/-- Modelled from the spec: the locking hysteresis of `processFrame` step 7
(`TrackedBA::processFrame` has no body in the repository; the thresholds are
TrackedBA.h's member initializers).  Unlocked: a frame with mean error below
`lock_error_threshold` increments the consecutive-stable counter, any other
frame resets it; on reaching `frames_needed_for_lock` the state locks and
freezes the currently accepted H/scale as the lock-time values.  Locked:
H and scale stay frozen at the lock-time values and a frame with mean error
above `unlock_error_threshold` unlocks; nothing else unlocks. -/
noncomputable def lockStep (s : LockState) (candH : HParams) (candScale : ℝ)
    (meanError : ℝ) : LockState :=
  if s.locked then
    if unlock_error_threshold < meanError then
      { locked := false, framesStable := 0, acceptedH := s.lockedH,
        acceptedScale := s.lockedScale, lockedH := s.lockedH,
        lockedScale := s.lockedScale }
    else
      { s with acceptedH := s.lockedH, acceptedScale := s.lockedScale }
  else
    let stable := if meanError < lock_error_threshold then s.framesStable + 1 else 0
    if frames_needed_for_lock ≤ stable then
      { locked := true, framesStable := stable, acceptedH := candH,
        acceptedScale := candScale, lockedH := candH, lockedScale := candScale }
    else
      { locked := false, framesStable := stable, acceptedH := candH,
        acceptedScale := candScale, lockedH := s.lockedH,
        lockedScale := s.lockedScale }

/-- Five consecutive frames applied to the locking state machine; each frame
carries a candidate H, candidate scale, and mean piece error. -/
noncomputable def runLock (s : LockState) (frames : List (HParams × ℝ × ℝ)) : LockState :=
  frames.foldl (fun st f => lockStep st f.1 f.2.1 f.2.2) s

/-- C5: starting unlocked with a zero stable counter, five consecutive frames
each with mean error below `lock_error_threshold = 5.0` drive the state to
locked, freezing H and scale at their lock-time values; while locked, a mean
error at or below `unlock_error_threshold = 15.0` (in particular any error
between 5.0 and 15.0) keeps the state locked with H/scale still frozen, and
the first frame with mean error above 15.0 unlocks. -/
theorem locking_hysteresis (H0 : HParams) (S0 : ℝ)
    (f1 f2 f3 f4 f5 : HParams × ℝ × ℝ)
    (he1 : f1.2.2 < lock_error_threshold) (he2 : f2.2.2 < lock_error_threshold)
    (he3 : f3.2.2 < lock_error_threshold) (he4 : f4.2.2 < lock_error_threshold)
    (he5 : f5.2.2 < lock_error_threshold) :
    (runLock ⟨false, 0, H0, S0, H0, S0⟩ [f1, f2, f3, f4, f5]).locked = true ∧
    (runLock ⟨false, 0, H0, S0, H0, S0⟩ [f1, f2, f3, f4, f5]).acceptedH = f5.1 ∧
    (runLock ⟨false, 0, H0, S0, H0, S0⟩ [f1, f2, f3, f4, f5]).acceptedScale = f5.2.1 ∧
    (runLock ⟨false, 0, H0, S0, H0, S0⟩ [f1, f2, f3, f4, f5]).lockedH = f5.1 ∧
    (runLock ⟨false, 0, H0, S0, H0, S0⟩ [f1, f2, f3, f4, f5]).lockedScale = f5.2.1 ∧
    (∀ (s : LockState) (cH : HParams) (cS e : ℝ), s.locked = true →
      e ≤ unlock_error_threshold →
      (lockStep s cH cS e).locked = true ∧
      (lockStep s cH cS e).acceptedH = s.lockedH ∧
      (lockStep s cH cS e).acceptedScale = s.lockedScale ∧
      (lockStep s cH cS e).lockedH = s.lockedH ∧
      (lockStep s cH cS e).lockedScale = s.lockedScale) ∧
    (∀ (s : LockState) (cH : HParams) (cS e : ℝ), s.locked = true →
      unlock_error_threshold < e → (lockStep s cH cS e).locked = false) := by
  have hs1 : lockStep ⟨false, 0, H0, S0, H0, S0⟩ f1.1 f1.2.1 f1.2.2 =
      ⟨false, 1, f1.1, f1.2.1, H0, S0⟩ := by
    simp [lockStep, he1, frames_needed_for_lock]
  have hs2 : lockStep ⟨false, 1, f1.1, f1.2.1, H0, S0⟩ f2.1 f2.2.1 f2.2.2 =
      ⟨false, 2, f2.1, f2.2.1, H0, S0⟩ := by
    simp [lockStep, he2, frames_needed_for_lock]
  have hs3 : lockStep ⟨false, 2, f2.1, f2.2.1, H0, S0⟩ f3.1 f3.2.1 f3.2.2 =
      ⟨false, 3, f3.1, f3.2.1, H0, S0⟩ := by
    simp [lockStep, he3, frames_needed_for_lock]
  have hs4 : lockStep ⟨false, 3, f3.1, f3.2.1, H0, S0⟩ f4.1 f4.2.1 f4.2.2 =
      ⟨false, 4, f4.1, f4.2.1, H0, S0⟩ := by
    simp [lockStep, he4, frames_needed_for_lock]
  have hs5 : lockStep ⟨false, 4, f4.1, f4.2.1, H0, S0⟩ f5.1 f5.2.1 f5.2.2 =
      ⟨true, 5, f5.1, f5.2.1, f5.1, f5.2.1⟩ := by
    simp [lockStep, he5, frames_needed_for_lock]
  have hrun : runLock ⟨false, 0, H0, S0, H0, S0⟩ [f1, f2, f3, f4, f5] =
      ⟨true, 5, f5.1, f5.2.1, f5.1, f5.2.1⟩ := by
    simp only [runLock, List.foldl_cons, List.foldl_nil, hs1, hs2, hs3, hs4, hs5]
  refine ⟨by rw [hrun], by rw [hrun], by rw [hrun], by rw [hrun], by rw [hrun], ?_, ?_⟩
  · intro s cH cS e hlocked he
    have hne : ¬(unlock_error_threshold < e) := not_lt.mpr he
    refine ⟨?_, ?_, ?_, ?_, ?_⟩ <;> simp [lockStep, hlocked, hne]
  · intro s cH cS e hlocked he
    simp [lockStep, hlocked, he]

/-- C5 witness: five concrete frames with mean error `1 < 5.0` lock the
machine and freeze H/scale at the fifth frame's candidate; a locked state
survives a mean error of `10 ≤ 15.0` and unlocks at `20 > 15.0`. -/
theorem locking_hysteresis_witness :
    (runLock ⟨false, 0, ⟨0, 0, 0, 0, 0, 0, 0, 0⟩, 1, ⟨0, 0, 0, 0, 0, 0, 0, 0⟩, 1⟩
      [(⟨1, 0, 0, 0, 1, 0, 0, 0⟩, 2, 1), (⟨1, 0, 0, 0, 1, 0, 0, 0⟩, 2, 1),
       (⟨1, 0, 0, 0, 1, 0, 0, 0⟩, 2, 1), (⟨1, 0, 0, 0, 1, 0, 0, 0⟩, 2, 1),
       (⟨1, 0, 0, 0, 1, 0, 0, 0⟩, 2, 1)]).locked = true ∧
    (runLock ⟨false, 0, ⟨0, 0, 0, 0, 0, 0, 0, 0⟩, 1, ⟨0, 0, 0, 0, 0, 0, 0, 0⟩, 1⟩
      [(⟨1, 0, 0, 0, 1, 0, 0, 0⟩, 2, 1), (⟨1, 0, 0, 0, 1, 0, 0, 0⟩, 2, 1),
       (⟨1, 0, 0, 0, 1, 0, 0, 0⟩, 2, 1), (⟨1, 0, 0, 0, 1, 0, 0, 0⟩, 2, 1),
       (⟨1, 0, 0, 0, 1, 0, 0, 0⟩, 2, 1)]).lockedH = ⟨1, 0, 0, 0, 1, 0, 0, 0⟩ ∧
    (lockStep ⟨true, 5, ⟨1, 0, 0, 0, 1, 0, 0, 0⟩, 2, ⟨1, 0, 0, 0, 1, 0, 0, 0⟩, 2⟩
      ⟨0, 0, 0, 0, 0, 0, 0, 0⟩ 1 10).locked = true ∧
    (lockStep ⟨true, 5, ⟨1, 0, 0, 0, 1, 0, 0, 0⟩, 2, ⟨1, 0, 0, 0, 1, 0, 0, 0⟩, 2⟩
      ⟨0, 0, 0, 0, 0, 0, 0, 0⟩ 1 20).locked = false := by
  have he : (1 : ℝ) < lock_error_threshold := by norm_num [lock_error_threshold]
  have h := locking_hysteresis ⟨0, 0, 0, 0, 0, 0, 0, 0⟩ 1
    (⟨1, 0, 0, 0, 1, 0, 0, 0⟩, 2, 1) (⟨1, 0, 0, 0, 1, 0, 0, 0⟩, 2, 1)
    (⟨1, 0, 0, 0, 1, 0, 0, 0⟩, 2, 1) (⟨1, 0, 0, 0, 1, 0, 0, 0⟩, 2, 1)
    (⟨1, 0, 0, 0, 1, 0, 0, 0⟩, 2, 1) he he he he he
  refine ⟨h.1, h.2.2.2.1, ?_, ?_⟩
  · exact (h.2.2.2.2.2.1 ⟨true, 5, ⟨1, 0, 0, 0, 1, 0, 0, 0⟩, 2, ⟨1, 0, 0, 0, 1, 0, 0, 0⟩, 2⟩
      ⟨0, 0, 0, 0, 0, 0, 0, 0⟩ 1 10 rfl (by norm_num [unlock_error_threshold])).1
  · exact h.2.2.2.2.2.2 ⟨true, 5, ⟨1, 0, 0, 0, 1, 0, 0, 0⟩, 2, ⟨1, 0, 0, 0, 1, 0, 0, 0⟩, 2⟩
      ⟨0, 0, 0, 0, 0, 0, 0, 0⟩ 1 20 rfl (by norm_num [unlock_error_threshold])

/-- A 3×3 homography matrix (`cv::Matx33d`). -/
structure Mat3 where
  m00 : ℝ
  m01 : ℝ
  m02 : ℝ
  m10 : ℝ
  m11 : ℝ
  m12 : ℝ
  m20 : ℝ
  m21 : ℝ
  m22 : ℝ

/-- Modelled from the spec: `packParamsTracked` has no body in the repository
(Parameterization.h only declares it); the flattened layout follows spec
section 3 (`FilterState`): 8 free H parameters (row-major, `H[2][2]` gauge
fixed at 1 and dropped), then the scale, then `n_objects = 7` poses of
`(θ, tx, ty)` each — 30 scalars (`N_STATES = 30` in KalmanTracker.h). -/
def packParamsTracked (H : Mat3) (scale : ℝ) (poses : Fin 7 → Pose) : List ℝ :=
  [H.m00, H.m01, H.m02, H.m10, H.m11, H.m12, H.m20, H.m21, scale] ++
    (List.finRange 7).flatMap (fun i => [(poses i).theta, (poses i).tx, (poses i).ty])

/-- Modelled from the spec: `unpackParamsTracked` has no body in the
repository (Parameterization.h only declares it); reads the flattened state
back by position, restoring `H[2][2] = 1`. -/
def unpackParamsTracked (x : List ℝ) : Mat3 × ℝ × (Fin 7 → Pose) :=
  (⟨x.getD 0 0, x.getD 1 0, x.getD 2 0, x.getD 3 0, x.getD 4 0, x.getD 5 0,
    x.getD 6 0, x.getD 7 0, 1⟩,
   x.getD 8 0,
   fun i => ⟨x.getD (9 + 3 * i.val) 0, x.getD (10 + 3 * i.val) 0,
     x.getD (11 + 3 * i.val) 0⟩)

/-- The temporal filter's state as far as initialization is concerned:
the flag `initialized_`, the flattened state vector `state_`, and the
timestamp (KalmanTracker.h lines 36-42). -/
structure KalmanTracker where
  initialized : Bool
  state : List ℝ
  timestamp : ℝ

/-- Modelled from the spec: `KalmanTracker::initialize` has no body in the
repository (KalmanTracker.h only declares it); it packs H, scale and poses
into the flattened state vector, stores the timestamp, and marks the filter
initialized. -/
def KalmanTracker.initialize (H : Mat3) (scale : ℝ) (poses : Fin 7 → Pose)
    (timestamp : ℝ) : KalmanTracker :=
  ⟨true, packParamsTracked H scale poses, timestamp⟩

/-- Modelled from the spec: `KalmanTracker::getState` has no body in the
repository (KalmanTracker.h only declares it); it unpacks the flattened
state vector back into `(H, scale, poses)`. -/
def KalmanTracker.getState (k : KalmanTracker) : Mat3 × ℝ × (Fin 7 → Pose) :=
  unpackParamsTracked k.state

/-- C8: for every gauge-fixed homography (`H[2][2] = 1`), scale, pose map and
timestamp, `initialize` followed by `getState` returns exactly the same H,
scale and poses, through the 30-element flattened state vector. -/
theorem initialize_getState_roundtrip (H : Mat3) (scale : ℝ) (poses : Fin 7 → Pose)
    (t : ℝ) (h22 : H.m22 = 1) :
    ( KalmanTracker.initialize H scale poses t).getState = (H, scale, poses) ∧
    ( KalmanTracker.initialize H scale poses t).initialized = true ∧
    (packParamsTracked H scale poses).length = 30 := by
  obtain ⟨m00, m01, m02, m10, m11, m12, m20, m21, m22⟩ := H
  subst h22
  refine ⟨?_, rfl, rfl⟩
  have h3 : (( KalmanTracker.initialize ⟨m00, m01, m02, m10, m11, m12, m20, m21, 1⟩
      scale poses t).getState).2.2 = poses := by
    funext i
    fin_cases i <;> rfl
  have h1 : (( KalmanTracker.initialize ⟨m00, m01, m02, m10, m11, m12, m20, m21, 1⟩
      scale poses t).getState).1 = ⟨m00, m01, m02, m10, m11, m12, m20, m21, 1⟩ := rfl
  have h2 : (( KalmanTracker.initialize ⟨m00, m01, m02, m10, m11, m12, m20, m21, 1⟩
      scale poses t).getState).2.1 = scale := rfl
  exact Prod.ext h1 (Prod.ext h2 h3)

/-- C8 witness: a concrete gauge-fixed homography, scale `2`, all-zero poses
and timestamp `3` round-trip exactly. -/
theorem initialize_getState_roundtrip_witness :
    (Mat3.mk 4 0 0 0 4 0 0 0 1).m22 = 1 ∧
    ( KalmanTracker.initialize ⟨4, 0, 0, 0, 4, 0, 0, 0, 1⟩ 2 (fun _ => ⟨0, 0, 0⟩) 3).getState =
      (⟨4, 0, 0, 0, 4, 0, 0, 0, 1⟩, 2, fun _ => ⟨0, 0, 0⟩) ∧
    (packParamsTracked ⟨4, 0, 0, 0, 4, 0, 0, 0, 1⟩ 2 (fun _ => ⟨0, 0, 0⟩)).length = 30 := by
  have h := initialize_getState_roundtrip ⟨4, 0, 0, 0, 4, 0, 0, 0, 1⟩ 2
    (fun _ => ⟨0, 0, 0⟩) 3 rfl
  exact ⟨rfl, h.1, h.2.2⟩

/-- A solver run's outcome: the final state and how many optimizer iterations
were actually performed. -/
structure SolveResult (σ : Type) where
  final : σ
  iterationsUsed : ℕ

/-- Modelled from the spec: `BundleAdjustment::solve` has no body in the
repository (BundleAdjustment.h only declares
`solve(inputs, max_iterations = 100)`); spec section 4.3 describes a
bounded-iteration nonlinear least-squares loop, abstracted here over one
optimizer iteration `step` and a convergence test: it performs at most the
given number of iterations, stops early on convergence, and always returns
a result (non-convergence surfaces only through the returned state). -/
def runSolver {σ : Type} (step : σ → σ) (converged : σ → Bool) :
    ℕ → σ → SolveResult σ
  | 0, s => ⟨s, 0⟩
  | n + 1, s =>
    if converged s then ⟨s, 0⟩
    else
      let r := runSolver step converged n (step s)
      ⟨r.final, r.iterationsUsed + 1⟩

/-- The header's default iteration budget, `int max_iterations = 100`
(BundleAdjustment.h line 12). -/
def default_max_iterations : ℕ := 100

/-- Modelled from the spec: `BundleAdjustment::solve` as the bounded
iteration loop started on the warm-start state. -/
def BundleAdjustment.solve {σ : Type} (step : σ → σ) (converged : σ → Bool)
    (init : σ) (max_iterations : ℕ) : SolveResult σ :=
  runSolver step converged max_iterations init

/-- C9: for every input state and every iteration budget, `solve` returns a
result (it is a total function) using at most `max_iterations` optimizer
iterations, regardless of whether the convergence test ever succeeds; with
the header's default budget the bound is 100. -/
theorem solve_bounded_iterations {σ : Type} (step : σ → σ) (converged : σ → Bool)
    (init : σ) (max_iterations : ℕ) :
    (BundleAdjustment.solve step converged init max_iterations).iterationsUsed ≤
      max_iterations ∧
    (BundleAdjustment.solve step converged init default_max_iterations).iterationsUsed ≤
      100 := by
  have key : ∀ (n : ℕ) (s : σ), (runSolver step converged n s).iterationsUsed ≤ n := by
    intro n
    induction n with
    | zero => intro s; rfl
    | succ n ih =>
      intro s
      by_cases h : converged s = true
      · simp [runSolver, h]
      · simp only [runSolver, h, if_false]
        exact Nat.succ_le_succ (ih (step s))
  exact ⟨key max_iterations init, key default_max_iterations init⟩

end Tangram
